import Mathlib

/-!
Verification of the statement-segmentation engine and the execution /
cancellation pipeline of the frost SQL IDE (src/syntax.rs and
src/workspace.rs), as a shallow embedding over `List Char` (the source
operates on the UTF-8 byte slice; every input considered here is ASCII,
so one `Char` stands for one byte).
-/

namespace Frost

/-- Character constant: single quote (ASCII 39). -/
def cSQ : Char := Char.ofNat 39

/-- Character constant: double quote (ASCII 34). -/
def cDQ : Char := Char.ofNat 34

/-- Character constant: backslash (ASCII 92). -/
def cBS : Char := Char.ofNat 92

/-- Character constant: line feed (ASCII 10). -/
def cNL : Char := Char.ofNat 10

/-- Rust `u8::is_ascii_whitespace`: space, tab, newline, form feed, carriage return
(note: no vertical tab). -/
def isAsciiWs (c : Char) : Bool :=
  c.toNat = 32 || c.toNat = 9 || c.toNat = 10 || c.toNat = 12 || c.toNat = 13

/-- Rust `char::is_whitespace` restricted to ASCII (used by `str::trim` and
`str::trim_start`): space, tab, newline, vertical tab, form feed, carriage return. -/
def isTrimWs (c : Char) : Bool :=
  c.toNat = 32 || c.toNat = 9 || c.toNat = 10 || c.toNat = 11 || c.toNat = 12 || c.toNat = 13

/-- Rust `u8::is_ascii_alphanumeric`. -/
def isAsciiAlnum (c : Char) : Bool :=
  (('0' ≤ c) && (c ≤ '9')) || (('a' ≤ c) && (c ≤ 'z')) || (('A' ≤ c) && (c ≤ 'Z'))

/-- Byte at index `j`, alphanumeric test; out-of-range reads as false (the source
only indexes in bounds). -/
def alnumAt (l : List Char) (j : Nat) : Bool :=
  match l[j]? with
  | some c => isAsciiAlnum c
  | none => false

/-- Rust `str::trim` on a char list: drop whitespace from both ends. -/
def trimLC (l : List Char) : List Char :=
  ((l.dropWhile isTrimWs).reverse.dropWhile isTrimWs).reverse

/-- Rust slice `text[a..b]`. -/
def slice (l : List Char) (a b : Nat) : List Char :=
  (l.drop a).take (b - a)

/-- Rust `str::eq_ignore_ascii_case`, character-wise. -/
def eqIgnoreCase : List Char → List Char → Bool
  | [], [] => true
  | a :: as_, b :: bs => (a.toLower == b.toLower) && eqIgnoreCase as_ bs
  | _, _ => false

/-- Rust `str::to_uppercase` (ASCII behaviour). -/
def upperLC (l : List Char) : List Char := l.map Char.toUpper

/-- Rust `str::starts_with`. -/
def startsWithLC (l pat : List Char) : Bool := pat.isPrefixOf l

/-- Rust `str::contains` (substring containment). -/
def containsSub : List Char → List Char → Bool
  | l, pat =>
    if pat.isPrefixOf l then true
    else match l with
      | [] => false
      | _ :: t => containsSub t pat

/-- ScanState of the syntax scanner (`ParseState` in src/syntax.rs). -/
inductive ParseState
  | Normal
  | InSingle
  | InDouble
  | InBlock
  | InLine
  | InDollar
deriving DecidableEq, Repr

/-- One-byte scanner result codes (`Step` in src/syntax.rs). -/
inductive ScanStep
  | Semi
  | Advance
  | Eof
deriving DecidableEq, Repr

/-- The shared one-byte scanner `step(bytes, i, &mut state)` of src/syntax.rs
(lines 216-288), returning `(next_offset, step_code, new_state)`. -/
def stepFn (bytes : List Char) (i : Nat) (state : ParseState) :
    Nat × ScanStep × ParseState :=
  if i ≥ bytes.length then (i, .Eof, state)
  else
    match state with
    | .Normal =>
      if bytes[i]? = some cSQ then (i + 1, .Advance, .InSingle)
      else if bytes[i]? = some cDQ then (i + 1, .Advance, .InDouble)
      else if bytes[i]? = some '/' ∧ bytes[i+1]? = some '*' then (i + 2, .Advance, .InBlock)
      else if bytes[i]? = some '-' ∧ bytes[i+1]? = some '-' then (i + 2, .Advance, .InLine)
      else if bytes[i]? = some '$' ∧ bytes[i+1]? = some '$' then (i + 2, .Advance, .InDollar)
      else if bytes[i]? = some ';' then (i + 1, .Semi, .Normal)
      else (i + 1, .Advance, .Normal)
    | .InSingle =>
      if bytes[i]? = some cSQ then
        if bytes[i+1]? = some cSQ then (i + 2, .Advance, .InSingle)
        else (i + 1, .Advance, .Normal)
      else if bytes[i]? = some cBS ∧ bytes[i+1]? = some cSQ then (i + 2, .Advance, .InSingle)
      else (i + 1, .Advance, .InSingle)
    | .InDouble =>
      if bytes[i]? = some cDQ then
        if bytes[i+1]? = some cDQ then (i + 2, .Advance, .InDouble)
        else (i + 1, .Advance, .Normal)
      else if bytes[i]? = some cBS ∧ bytes[i+1]? = some cDQ then (i + 2, .Advance, .InDouble)
      else (i + 1, .Advance, .InDouble)
    | .InBlock =>
      if bytes[i]? = some '*' ∧ bytes[i+1]? = some '/' then (i + 2, .Advance, .Normal)
      else (i + 1, .Advance, .InBlock)
    | .InLine =>
      if bytes[i]? = some cNL then (i + 1, .Advance, .Normal)
      else (i + 1, .Advance, .InLine)
    | .InDollar =>
      if bytes[i]? = some '$' ∧ bytes[i+1]? = some '$' then (i + 2, .Advance, .Normal)
      else (i + 1, .Advance, .InDollar)

/-- Generic fuelled loop: run `f` until it produces a result or fuel runs out. -/
def iterate {σ α : Type} (f : σ → σ ⊕ α) : Nat → σ → Option α
  | 0, _ => none
  | n + 1, s =>
    match f s with
    | .inr a => some a
    | .inl s' => iterate f n s'

/-- Keyword constant BEGIN. -/
def kwBEGIN : List Char := "BEGIN".data

/-- Keyword constant END. -/
def kwEND : List Char := "END".data

/-- Keyword constant DECLARE. -/
def kwDECLARE : List Char := "DECLARE".data

/-- Keyword constant AS. -/
def kwAS : List Char := "AS".data

/-- Keyword constant TRANSACTION. -/
def kwTRANSACTION : List Char := "TRANSACTION".data

/-- The `has_keyword_at` helper of `find_enclosing_block` (workspace.rs lines
926-942): case-insensitive match at `pos` with word boundaries that reject an
adjacent ASCII alphanumeric byte (an adjacent underscore is accepted).
The same inline check is used by `find_ddl_with_block_end` for its
BEGIN / END / DECLARE chunk tests.  The source slices
`&text[pos..pos + keyword.len()]` at raw byte positions, which panics when an
endpoint is not a UTF-8 character boundary; this total model reads ASCII
inputs faithfully, and `hasKeywordAtB` below makes the panic expressible. -/
def hasKeywordAt (text : List Char) (pos : Nat) (kw : List Char) : Bool :=
  if pos + kw.length > text.length then false
  else if ¬ eqIgnoreCase (slice text pos (pos + kw.length)) kw then false
  else
    let beforeOk := pos = 0 ∨ alnumAt text (pos - 1) = false
    let afterOk := pos + kw.length ≥ text.length ∨ alnumAt text (pos + kw.length) = false
    decide beforeOk && decide afterOk

/-- Skip `u8::is_ascii_whitespace` bytes forward from `p` (the
"include semicolon" epilogue loops of the block scanners). -/
def skipAsciiWs (buf : List Char) : Nat → Nat → Nat
  | 0, p => p
  | f + 1, p =>
    if p < buf.length ∧ isAsciiWs (buf.getD p ' ') then skipAsciiWs buf f (p + 1)
    else p

/-- Epilogue shared by all three block scanners: from the byte after END, skip
ASCII whitespace and include one optional semicolon. -/
def extendWsSemi (buf : List Char) (p : Nat) : Nat :=
  let q := skipAsciiWs buf (buf.length + 1) p
  if q < buf.length ∧ buf[q]? = some ';' then q + 1 else q

/-- Result of an inner block scan: a matching END was found (with the block end
position), or the scan stopped with the given cursor. -/
inductive ScanOut
  | found (e : Nat)
  | stopped (j : Nat)
deriving DecidableEq, Repr

/-- Inner scan of the DECLARE branch of `find_enclosing_block` (workspace.rs
lines 957-983): find the END matching the first BEGIN after a DECLARE.
`count` is the running BEGIN depth (i32 in the source), `found` records
whether a BEGIN has been seen yet. -/
def declScan (buf : List Char) : Nat → Nat → Int → Bool → ScanOut
  | 0, j, _, _ => .stopped j
  | f + 1, j, count, found =>
    if j ≥ buf.length then .stopped j
    else if hasKeywordAt buf j kwBEGIN then declScan buf f (j + 5) (count + 1) true
    else if found && hasKeywordAt buf j kwEND then
      if count - 1 = 0 then .found (extendWsSemi buf (j + 3))
      else declScan buf f (j + 3) (count - 1) found
    else declScan buf f (j + 1) count found

/-- Inner scan of the standalone-BEGIN branch of `find_enclosing_block`
(workspace.rs lines 1005-1029): depth-counted scan for the matching END. -/
def beginScan (buf : List Char) : Nat → Nat → Int → ScanOut
  | 0, j, _ => .stopped j
  | f + 1, j, count =>
    if ¬ (j < buf.length ∧ count > 0) then .stopped j
    else if hasKeywordAt buf j kwBEGIN then beginScan buf f (j + 5) (count + 1)
    else if hasKeywordAt buf j kwEND then
      if count - 1 = 0 then .found (extendWsSemi buf (j + 3))
      else beginScan buf f (j + 3) (count - 1)
    else beginScan buf f (j + 1) count

/-- Outer buffer scan of `find_enclosing_block` (workspace.rs lines 944-1038):
collect every DECLARE / standalone-BEGIN block of the buffer, left to right.
Note that this scan never consults the Scanner: keywords are recognised by
`hasKeywordAt` alone, wherever they occur. -/
def collectBlocksLoop (buf : List Char) : Nat → Nat → List (Nat × Nat) → List (Nat × Nat)
  | 0, _, blocks => blocks
  | f + 1, i, blocks =>
    if i ≥ buf.length then blocks
    else if hasKeywordAt buf i kwDECLARE then
      match declScan buf (buf.length + 1) (i + 7) 0 false with
      | .found e => collectBlocksLoop buf f e (blocks ++ [(i, e)])
      | .stopped _ => blocks
    else if hasKeywordAt buf i kwBEGIN then
      if blocks.any (fun b => decide (b.1 ≤ i ∧ i < b.2)) then collectBlocksLoop buf f i blocks
      else
        match beginScan buf (buf.length + 1) (i + 5) 1 with
        | .found e => collectBlocksLoop buf f e (blocks ++ [(i, e)])
        | .stopped j => if j ≥ buf.length then blocks else collectBlocksLoop buf f i blocks
    else collectBlocksLoop buf f (i + 1) blocks

/-- The function `find_enclosing_block(buf, pos)` of workspace.rs (lines
924-1048): collect all blocks, then return the first one containing `pos`. -/
def find_enclosing_block (buf : List Char) (pos : Nat) : Option (Nat × Nat) :=
  (collectBlocksLoop buf (buf.length + 1) 0 []).find? (fun b => decide (pos ≥ b.1 ∧ pos < b.2))

/-- The predicate `is_block_containing_ddl` of workspace.rs (lines 1051-1059). -/
def is_block_containing_ddl (text : List Char) : Bool :=
  let trimmed := upperLC (trimLC text)
  startsWithLC trimmed ("CREATE PROCEDURE".data) ||
  startsWithLC trimmed ("CREATE OR REPLACE PROCEDURE".data) ||
  startsWithLC trimmed ("CREATE FUNCTION".data) ||
  startsWithLC trimmed ("CREATE OR REPLACE FUNCTION".data) ||
  startsWithLC trimmed ("CREATE TASK".data) ||
  startsWithLC trimmed ("CREATE OR REPLACE TASK".data)

/-- The AS-keyword test of `find_ddl_with_block_end` (workspace.rs lines
1076-1086): the suffix at `i`, after `trim_start`, begins with AS followed by
a non-alphanumeric.  Only the right boundary is checked: an AS directly
preceded by an alphanumeric (such as the tail of ALIAS) is accepted.  The
source's `&text[i..].trim_start()` slice panics at a mid-character `i` on
non-ASCII input; this total model reads ASCII inputs faithfully. -/
def asHitAt (text : List Char) (i : Nat) : Bool :=
  let word := (text.drop i).dropWhile isTrimWs
  decide (word.length ≥ 2) && eqIgnoreCase (word.take 2) kwAS &&
    decide (word.length = 2 ∨ alnumAt word 2 = false)

/-- Inner loop of the DECLARE case of `find_ddl_with_block_end` (workspace.rs
lines 1110-1126): scan forward for the BEGIN of a DECLARE body, checking the
re-run scanner state post-step. -/
def ddlDeclBeginScan (bytes : List Char) : Nat → Nat → ParseState → Option (Nat × ParseState)
  | 0, _, _ => none
  | f + 1, i, st =>
    if i ≥ bytes.length then none
    else
      let r := stepFn bytes i st
      if r.2.2 = .Normal ∧ hasKeywordAt bytes i kwBEGIN then some (i + 5, r.2.2)
      else ddlDeclBeginScan bytes f r.1 r.2.2

/-- Phase one of `find_ddl_with_block_end` (workspace.rs lines 1073-1141):
drive the scanner forward, find the AS keyword, then the BEGIN (possibly via
DECLARE) that opens the body; returns the cursor and scanner state entering
the depth-counted phase, or none. -/
def ddlPhaseA (bytes : List Char) : Nat → Nat → ParseState → Bool → Bool → Option (Nat × ParseState)
  | 0, _, _, _, _ => none
  | f + 1, i, st, foundAs, inAs =>
    if i ≥ bytes.length then none
    else
      let r := stepFn bytes i st
      if r.2.2 = .Normal ∧ i + 2 ≤ bytes.length ∧ asHitAt bytes i then
        ddlPhaseA bytes f r.1 r.2.2 true true
      else if inAs ∧ r.2.2 = .Normal ∧ hasKeywordAt bytes i kwBEGIN then
        some (i + 5, r.2.2)
      else if inAs ∧ r.2.2 = .Normal ∧ hasKeywordAt bytes i kwDECLARE then
        ddlDeclBeginScan bytes (bytes.length + 1) (i + 7) r.2.2
      else if r.2.1 = .Eof then none
      else ddlPhaseA bytes f r.1 r.2.2 foundAs inAs

/-- Phase two of `find_ddl_with_block_end` (workspace.rs lines 1143-1197):
depth-counted scan for the END matching the opening BEGIN, honouring keywords
only when the re-run scanner state is Normal. -/
def ddlPhaseB (bytes : List Char) : Nat → Nat → ParseState → Int → Option Nat
  | 0, _, _, _ => none
  | f + 1, i, st, count =>
    if ¬ (i < bytes.length ∧ count > 0) then none
    else
      let r := stepFn bytes i st
      if r.2.2 = .Normal ∧ hasKeywordAt bytes i kwBEGIN then
        ddlPhaseB bytes f (i + 5) r.2.2 (count + 1)
      else if r.2.2 = .Normal ∧ hasKeywordAt bytes i kwEND then
        if count - 1 = 0 then some (extendWsSemi bytes (i + 3))
        else ddlPhaseB bytes f (i + 3) r.2.2 (count - 1)
      else if r.2.1 = .Eof then none
      else ddlPhaseB bytes f r.1 r.2.2 count

/-- The function `find_ddl_with_block_end(text, start)` of workspace.rs
(lines 1062-1198). -/
def find_ddl_with_block_end (text : List Char) (start : Nat) : Option Nat :=
  match ddlPhaseA text (text.length + 1) start .Normal false false with
  | none => none
  | some p => ddlPhaseB text (text.length + 1) p.1 p.2 1

/-- Loop state of `split_sql`: cursor, statement start, scanner state,
statements collected so far. -/
structure SplitState where
  i : Nat
  start : Nat
  st : ParseState
  acc : List (List Char)
deriving DecidableEq, Repr

/-- Append a trimmed statement, discarding it when empty (the
`if !stmt.is_empty()` pushes of `split_sql`). -/
def pushTrimmed (acc : List (List Char)) (s : List Char) : List (List Char) :=
  if s = [] then acc else acc ++ [s]

/-- The standalone-block prefix test of `split_sql` (workspace.rs lines
1231-1234): the trimmed, uppercased remainder starts with DECLARE, or starts
with BEGIN and does not contain TRANSACTION. -/
def hasBlockKeywordStart (l : List Char) : Bool :=
  let trimmed := upperLC (trimLC l)
  startsWithLC trimmed kwDECLARE ||
    (startsWithLC trimmed kwBEGIN && ! containsSub trimmed kwTRANSACTION)

/-- Block-predicate phase of one `split_sql` iteration (workspace.rs lines
1210-1251): at a statement start in Normal state, try block-containing DDL
first, then a standalone DECLARE / BEGIN block; on a hit, push the trimmed
block and skip trailing whitespace. -/
def splitTryBlocks (text : List Char) (σ : SplitState) : Option SplitState :=
  if σ.st = .Normal ∧ σ.i = σ.start then
    let remaining := text.drop σ.i
    match (if is_block_containing_ddl remaining then
              find_ddl_with_block_end text σ.i else none) with
    | some ddlEnd =>
      let acc' := pushTrimmed σ.acc (trimLC (slice text σ.i ddlEnd))
      let i2 := skipAsciiWs text (text.length + 1) ddlEnd
      some ⟨i2, i2, σ.st, acc'⟩
    | none =>
      if hasBlockKeywordStart remaining then
        match find_enclosing_block text σ.i with
        | some b =>
          let acc' := pushTrimmed σ.acc (trimLC (slice text b.1 b.2))
          let i2 := skipAsciiWs text (text.length + 1) b.2
          some ⟨i2, i2, σ.st, acc'⟩
        | none => none
      else none
  else none

/-- One iteration of the `split_sql` loop (workspace.rs lines 1201-1274):
block-predicate checks at a statement start, then the scanner fallback.
Produces either the next loop state or the final statement list. -/
def splitStep (text : List Char) (σ : SplitState) : SplitState ⊕ List (List Char) :=
  match splitTryBlocks text σ with
  | some σ' => .inl σ'
  | none =>
    let r := stepFn text σ.i σ.st
    match r.2.1 with
    | .Semi => .inl ⟨r.1, r.1, r.2.2, pushTrimmed σ.acc (trimLC (slice text σ.start σ.i))⟩
    | .Advance => .inl ⟨r.1, σ.start, r.2.2, σ.acc⟩
    | .Eof => .inr (pushTrimmed σ.acc (trimLC (text.drop σ.start)))

/-- The function `split_sql(text)` of workspace.rs (lines 1201-1274); the
fuel `text.length + 2` is enough for the loop to reach its natural end
(theorem `split_sql_terminates_nonempty`). -/
def split_sql (text : List Char) : List (List Char) :=
  match iterate (splitStep text) (text.length + 2) ⟨0, 0, .Normal, []⟩ with
  | some r => r
  | none => []

/-- Loop state of `statement_at_caret`: cursor, statement start, scanner state. -/
structure CaretState where
  i : Nat
  stmtStart : Nat
  st : ParseState
deriving DecidableEq, Repr

/-- Return a trimmed segment, with the empty segment mapping to none (the
`return if stmt.is_empty() { None } else { Some(..) }` exits). -/
def stmtOpt (s : List Char) : Option (List Char) :=
  if s = [] then none else some s

/-- One iteration of the `statement_at_caret` loop (workspace.rs lines
1277-1343).  Unlike `split_sql`, the standalone-block probe
(`find_enclosing_block`) runs unconditionally at every statement start, and
the semicolon fallback returns the segment `[stmt_start, next)`, which
includes the terminating semicolon. -/
def caretStep (buf : List Char) (caret : Nat) (σ : CaretState) :
    CaretState ⊕ Option (List Char) :=
  let viaBlocks : Option (CaretState ⊕ Option (List Char)) :=
    if σ.i = σ.stmtStart ∧ σ.st = .Normal then
      let remaining := buf.drop σ.i
      let viaDdl : Option (CaretState ⊕ Option (List Char)) :=
        if is_block_containing_ddl remaining then
          match find_ddl_with_block_end buf σ.i with
          | some ddlEnd =>
            if caret ≥ σ.i ∧ caret ≤ ddlEnd then
              some (.inr (stmtOpt (trimLC (slice buf σ.i ddlEnd))))
            else
              let i2 := skipAsciiWs buf (buf.length + 1) ddlEnd
              some (.inl ⟨i2, i2, σ.st⟩)
          | none => none
        else none
      match viaDdl with
      | some r => some r
      | none =>
        match find_enclosing_block buf σ.i with
        | some b =>
          if caret ≥ b.1 ∧ caret ≤ b.2 then
            some (.inr (stmtOpt (trimLC (slice buf b.1 b.2))))
          else
            let i2 := skipAsciiWs buf (buf.length + 1) b.2
            some (.inl ⟨i2, i2, σ.st⟩)
        | none => none
    else none
  match viaBlocks with
  | some r => r
  | none =>
    let r := stepFn buf σ.i σ.st
    if r.2.1 = .Semi ∨ r.2.1 = .Eof then
      if caret ≥ σ.stmtStart ∧ caret < r.1 then
        .inr (stmtOpt (trimLC (slice buf σ.stmtStart r.1)))
      else if r.2.1 = .Eof then .inr none
      else .inl ⟨r.1, r.1, r.2.2⟩
    else .inl ⟨r.1, σ.stmtStart, r.2.2⟩

/-- The function `statement_at_caret(buf, caret)` of workspace.rs (lines
1277-1343). -/
def statement_at_caret (buf : List Char) (caret : Nat) : Option (List Char) :=
  match iterate (caretStep buf caret) (buf.length + 2) ⟨0, 0, .Normal⟩ with
  | some r => r
  | none => none

/-- The function `queries_for_execution` of workspace.rs (lines 897-915):
a non-empty selection is split, otherwise the caret statement is resolved and
itself passed through `split_sql`; otherwise the empty list. -/
def queries_for_execution (buffer : List Char) (selection : Option (Nat × Nat))
    (caret : Nat) : List (List Char) :=
  let viaCaret :=
    match statement_at_caret buffer caret with
    | some stmt => split_sql stmt
    | none => []
  match selection with
  | some r => if r.1 ≠ r.2 then split_sql (slice buffer r.1 r.2) else viaCaret
  | none => viaCaret

/-- Scanner state obtained by re-running the scanner from the top of the
buffer until the cursor reaches `p` (used to state where the block detectors
do or do not respect string / comment state). -/
def scanStateLoop (bytes : List Char) (p : Nat) : Nat → Nat → ParseState → ParseState
  | 0, _, st => st
  | f + 1, i, st =>
    if i ≥ p ∨ i ≥ bytes.length then st
    else
      let r := stepFn bytes i st
      scanStateLoop bytes p f r.1 r.2.2

/-- Scanner state at byte position `p` of a buffer scanned from offset 0 in
state Normal. -/
def scanStateAt (bytes : List Char) (p : Nat) : ParseState :=
  scanStateLoop bytes p (bytes.length + 1) 0 .Normal

/-- Per-tab result content (`ResultsContent` of src/results.rs); the
`TileRowStore` payload of `Table` is abstracted to its headers, and the
cursor / selection bookkeeping of `Error` is dropped. -/
inductive ResultsContent
  | Pending
  | Table (headers : List (List Char))
  | Info (message : List Char)
  | Error (message : List Char)
deriving DecidableEq, Repr

/-- Worker-to-UI response (`DbWorkerResponse` of workspace.rs).  `Instant`
and `Duration` payloads are abstracted to `Nat` (the worker model emits 0). -/
inductive DbWorkerResponse
  | connected
  | queryStarted (queryIdx : Nat) (started : Nat) (queryContext : List Char)
  | queryFinished (queryIdx : Nat) (elapsed : Nat) (result : ResultsContent)
  | queryError (queryIdx : Nat) (elapsed : Nat) (message : List Char)
deriving DecidableEq, Repr

/-- Index carried by a response (`query_idx`); `connected` carries none and
maps to 0. -/
def respIdx : DbWorkerResponse → Nat
  | .connected => 0
  | .queryStarted i _ _ => i
  | .queryFinished i _ _ => i
  | .queryError i _ _ => i

/-- Environment oracle for one batch entry: what the ODBC layer does for this
statement.  `allocErr` is `Statement::with_parent` failing, `dataOk` is a
result set whose `TileRowStore::from_rows` succeeds, `dataTileErr` one where
it fails, `noData` a rowcount-style result (message already formatted), and
`execErr` is `exec_direct` returning `Err`. -/
inductive ExecOutcome
  | allocErr (msg : List Char)
  | dataOk (headers : List (List Char))
  | dataTileErr (msg : List Char)
  | noData (msg : List Char)
  | execErr (msg : List Char)
deriving DecidableEq, Repr

/-- Does this outcome make the worker `break` out of the batch loop?
(`Statement` allocation failure at workspace.rs:185 and execution failure at
workspace.rs:271 break; a `TileRowStore` failure at workspace.rs:230
`continue`s.) -/
def stopsBatch : ExecOutcome → Bool
  | .allocErr _ => true
  | .execErr _ => true
  | _ => false

/-- The `RunQueries` batch loop of the DB worker (workspace.rs lines
172-276), threading the `CancellationSlot` contents explicitly.  The fresh
native statement handle of entry `idx` is modelled by `idx` itself.  Faithful
control-flow detail: the slot is written just before the execute call; the
clear at workspace.rs:275 is reached only on the two success paths, because
the error paths leave the loop via `break` (execErr, allocErr) or skip the
tail via `continue` (dataTileErr). -/
def runBatch (entries : List ((List Char × List Char) × ExecOutcome)) (idx : Nat)
    (slot : Option Nat) : List DbWorkerResponse × Option Nat :=
  match entries with
  | [] => ([], slot)
  | ((_, ctx), out) :: rest =>
    match out with
    | .allocErr m => ([.queryStarted idx 0 ctx, .queryError idx 0 m], slot)
    | .dataOk hs =>
      let r := runBatch rest (idx + 1) none
      (.queryStarted idx 0 ctx :: .queryFinished idx 0 (.Table hs) :: r.1, r.2)
    | .dataTileErr m =>
      let r := runBatch rest (idx + 1) (some idx)
      (.queryStarted idx 0 ctx :: .queryError idx 0 m :: r.1, r.2)
    | .noData m =>
      let r := runBatch rest (idx + 1) none
      (.queryStarted idx 0 ctx :: .queryFinished idx 0 (.Info m) :: r.1, r.2)
    | .execErr m => ([.queryStarted idx 0 ctx, .queryError idx 0 m], some idx)

/-- UI-to-worker request (`DbWorkerRequest` of workspace.rs); `RunQueries`
carries the per-entry environment oracle alongside each (sql, label) pair. -/
inductive DbWorkerRequest
  | runQueries (entries : List ((List Char × List Char) × ExecOutcome))
  | cancel
  | quit
deriving DecidableEq, Repr

/-- One dispatch of the connected worker loop (workspace.rs lines 169-288):
returns the responses emitted, the native-cancel calls issued (by handle),
the new slot contents, and whether the loop exits. -/
def handleRequest (slot : Option Nat) :
    DbWorkerRequest → List DbWorkerResponse × List Nat × Option Nat × Bool
  | .runQueries es =>
    let r := runBatch es 0 slot
    (r.1, [], r.2, false)
  | .cancel =>
    ([], (match slot with | some h => [h] | none => []), slot, false)
  | .quit => ([], [], slot, true)

/-- Per-statement UI tab (`ResultsTab` of src/results.rs, the fields touched
by `poll_db_responses`). -/
structure ResultsTab where
  content : ResultsContent
  running : Bool
  elapsed : Option Nat
  runStarted : Option Nat
deriving DecidableEq, Repr

/-- The tab created by `ResultsTab::new_pending_with_start`. -/
def newPendingTab (started : Nat) : ResultsTab :=
  { content := .Pending, running := true, elapsed := none, runStarted := some started }

/-- Workspace-coordinator state: the fields of `Workspace` written by
`poll_db_responses` (workspace.rs lines 2235-2312).  Query-context strings on
tabs and the schema-cache refresh are out of scope. -/
structure Coord where
  tabs : List ResultsTab
  tabIdx : Nat
  running : Bool
  runningQueryIdx : Option Nat
  totalQueries : Nat
  runStarted : Option Nat
  runDuration : Option Nat
  error : Option (List Char)
  connected : Bool
  statusMessage : Option (List Char)
deriving DecidableEq, Repr

/-- Mutate the tab at `idx` in place when it exists (`tabs.get_mut(idx)`). -/
def updateTabAt (tabs : List ResultsTab) (idx : Nat) (f : ResultsTab → ResultsTab) :
    List ResultsTab :=
  match tabs[idx]? with
  | some t => tabs.set idx (f t)
  | none => tabs

/-- One response handled by `poll_db_responses` (workspace.rs lines
2243-2305).  `Instant::elapsed` used for `run_duration` is abstracted to 0. -/
def applyResponse (st : Coord) : DbWorkerResponse → Coord
  | .connected =>
    { st with connected := true, statusMessage := some ("Connected to Snowflake".data) }
  | .queryStarted _ started _ =>
    let tabs := st.tabs ++ [newPendingTab started]
    { st with
        tabs := tabs, tabIdx := tabs.length - 1,
        runningQueryIdx := some (tabs.length - 1), running := true }
  | .queryFinished idx elapsed result =>
    let tabs := updateTabAt st.tabs idx (fun t =>
      { t with
          content := result, elapsed := some elapsed, running := false,
          runStarted := none })
    if idx + 1 < st.totalQueries then { st with tabs := tabs }
    else
      { st with
          tabs := tabs, running := false, runningQueryIdx := none,
          runDuration := st.runStarted.map (fun _ => 0) }
  | .queryError idx elapsed message =>
    let isCancel := containsSub message ("HY008".data)
    let tabs := updateTabAt st.tabs idx (fun t =>
      { t with
          content := if isCancel then .Info ("Cancelled.".data) else .Error message,
          elapsed := some elapsed, running := false, runStarted := none })
    { st with
        tabs := tabs, running := false, runningQueryIdx := none,
        runDuration := st.runStarted.map (fun _ => 0),
        error := if isCancel then st.error else some message }

/-- Outcome of `start_execute` (workspace.rs lines 2174-2205) as far as the
no-op path is concerned: an empty query list is surfaced as a status message
and no request is sent; otherwise the batch is submitted.  (Context-label
extraction is out of scope; the submitted payload keeps the query texts.) -/
inductive ExecutionSubmission
  | noOp (statusMessage : List Char)
  | submitted (queries : List (List Char))
deriving DecidableEq, Repr

/-- Status message of the empty-queries no-op path (workspace.rs:2181). -/
def noSqlMsg : List Char := "No SQL statement at caret/selection.".data

/-- Decision made by `start_execute` from the computed query list. -/
def start_execute_decision (buffer : List Char) (selection : Option (Nat × Nat))
    (caret : Nat) : ExecutionSubmission :=
  let qs := queries_for_execution buffer selection caret
  if qs.isEmpty then .noOp noSqlMsg else .submitted qs

/-!
Byte-level fragment.  The `List Char` embedding above reads every slice
totally, but the source indexes the raw UTF-8 bytes of a `&str`:
`has_keyword_at` slices `&text[pos..pos + keyword.len()]` at every byte
position, and such a slice panics when an endpoint falls inside a multi-byte
character.  The following byte-level model of `find_enclosing_block` (bytes
as `Nat`, a panicking slice as `none`) makes that failure expressible. -/

/-- Rust `u8::to_ascii_lowercase`. -/
def byteToLower (b : Nat) : Nat := if 65 ≤ b ∧ b ≤ 90 then b + 32 else b

/-- Rust `eq_ignore_ascii_case` over raw bytes. -/
def eqIgnoreCaseB : List Nat → List Nat → Bool
  | [], [] => true
  | a :: as_, b :: bs => (byteToLower a == byteToLower b) && eqIgnoreCaseB as_ bs
  | _, _ => false

/-- Rust `u8::is_ascii_alphanumeric` on a raw byte. -/
def isAsciiAlnumB (b : Nat) : Bool :=
  (48 ≤ b && b ≤ 57) || (97 ≤ b && b ≤ 122) || (65 ≤ b && b ≤ 90)

/-- Byte at index `j` of a raw buffer, alphanumeric test. -/
def alnumAtB (l : List Nat) (j : Nat) : Bool :=
  match l[j]? with
  | some b => isAsciiAlnumB b
  | none => false

/-- Rust `u8::is_ascii_whitespace` on a raw byte. -/
def isAsciiWsB (b : Nat) : Bool := b = 32 || b = 9 || b = 10 || b = 12 || b = 13

/-- Rust `str::is_char_boundary`: position 0, the end of the buffer, or any
byte that is not a UTF-8 continuation byte. -/
def isCharBoundary (bytes : List Nat) (p : Nat) : Bool :=
  if p = 0 then true
  else match bytes[p]? with
    | some b => b < 128 || 192 ≤ b
    | none => decide (p = bytes.length)

/-- Rust byte-range slice of the underlying buffer (the in-range, on-boundary
case of `&text[a..b]`). -/
def sliceB (l : List Nat) (a b : Nat) : List Nat := (l.drop a).take (b - a)

/-- Keyword constant BEGIN as UTF-8 bytes. -/
def kwBEGINB : List Nat := [66, 69, 71, 73, 78]

/-- Keyword constant END as UTF-8 bytes. -/
def kwENDB : List Nat := [69, 78, 68]

/-- Keyword constant DECLARE as UTF-8 bytes. -/
def kwDECLAREB : List Nat := [68, 69, 67, 76, 65, 82, 69]

/-- Byte-level `has_keyword_at` (workspace.rs lines 926-942) with the panic
made explicit: after the length guard, the source slices
`&text[pos..pos + keyword.len()]`, which panics (`none` here) when either
endpoint is not a character boundary. -/
def hasKeywordAtB (text : List Nat) (pos : Nat) (kw : List Nat) : Option Bool :=
  if pos + kw.length > text.length then some false
  else if ¬ (isCharBoundary text pos ∧ isCharBoundary text (pos + kw.length)) then none
  else if ¬ eqIgnoreCaseB (sliceB text pos (pos + kw.length)) kw then some false
  else
    let beforeOk := pos = 0 ∨ alnumAtB text (pos - 1) = false
    let afterOk := pos + kw.length ≥ text.length ∨ alnumAtB text (pos + kw.length) = false
    some (decide beforeOk && decide afterOk)

/-- Byte-level whitespace skip (`as_bytes()` indexing only, never panics). -/
def skipAsciiWsB (buf : List Nat) : Nat → Nat → Nat
  | 0, p => p
  | f + 1, p =>
    if p < buf.length ∧ isAsciiWsB (buf.getD p 0) then skipAsciiWsB buf f (p + 1)
    else p

/-- Byte-level block-end epilogue (whitespace then one optional semicolon). -/
def extendWsSemiB (buf : List Nat) (p : Nat) : Nat :=
  let q := skipAsciiWsB buf (buf.length + 1) p
  if q < buf.length ∧ buf[q]? = some 59 then q + 1 else q

/-- Byte-level DECLARE inner scan of `find_enclosing_block`; a panicking
keyword probe aborts the whole computation.  The END probe is short-circuited
behind `found`, as in the source's `found_begin && has_keyword_at(..)`. -/
def declScanB (buf : List Nat) : Nat → Nat → Int → Bool → Option ScanOut
  | 0, j, _, _ => some (.stopped j)
  | f + 1, j, count, found =>
    if j ≥ buf.length then some (.stopped j)
    else match hasKeywordAtB buf j kwBEGINB with
      | none => none
      | some true => declScanB buf f (j + 5) (count + 1) true
      | some false =>
        if found then
          match hasKeywordAtB buf j kwENDB with
          | none => none
          | some true =>
            if count - 1 = 0 then some (.found (extendWsSemiB buf (j + 3)))
            else declScanB buf f (j + 3) (count - 1) found
          | some false => declScanB buf f (j + 1) count found
        else declScanB buf f (j + 1) count found

/-- Byte-level standalone-BEGIN inner scan of `find_enclosing_block`. -/
def beginScanB (buf : List Nat) : Nat → Nat → Int → Option ScanOut
  | 0, j, _ => some (.stopped j)
  | f + 1, j, count =>
    if ¬ (j < buf.length ∧ count > 0) then some (.stopped j)
    else match hasKeywordAtB buf j kwBEGINB with
      | none => none
      | some true => beginScanB buf f (j + 5) (count + 1)
      | some false =>
        match hasKeywordAtB buf j kwENDB with
        | none => none
        | some true =>
          if count - 1 = 0 then some (.found (extendWsSemiB buf (j + 3)))
          else beginScanB buf f (j + 3) (count - 1)
        | some false => beginScanB buf f (j + 1) count

/-- Byte-level outer scan of `find_enclosing_block`. -/
def collectBlocksLoopB (buf : List Nat) :
    Nat → Nat → List (Nat × Nat) → Option (List (Nat × Nat))
  | 0, _, blocks => some blocks
  | f + 1, i, blocks =>
    if i ≥ buf.length then some blocks
    else match hasKeywordAtB buf i kwDECLAREB with
      | none => none
      | some true =>
        match declScanB buf (buf.length + 1) (i + 7) 0 false with
        | none => none
        | some (.found e) => collectBlocksLoopB buf f e (blocks ++ [(i, e)])
        | some (.stopped _) => some blocks
      | some false =>
        match hasKeywordAtB buf i kwBEGINB with
        | none => none
        | some true =>
          if blocks.any (fun b => decide (b.1 ≤ i ∧ i < b.2)) then
            collectBlocksLoopB buf f i blocks
          else
            match beginScanB buf (buf.length + 1) (i + 5) 1 with
            | none => none
            | some (.found e) => collectBlocksLoopB buf f e (blocks ++ [(i, e)])
            | some (.stopped j) =>
              if j ≥ buf.length then some blocks else collectBlocksLoopB buf f i blocks
        | some false => collectBlocksLoopB buf f (i + 1) blocks

/-- Byte-level `find_enclosing_block`: `none` is a panic of the underlying
scan, `some r` the result the source would return. -/
def find_enclosing_blockB (buf : List Nat) (pos : Nat) :
    Option (Option (Nat × Nat)) :=
  (collectBlocksLoopB buf (buf.length + 1) 0 []).map
    (fun blocks => blocks.find? (fun b => decide (pos ≥ b.1 ∧ pos < b.2)))

/-- Example buffer: a single statement terminated by a semicolon. -/
def exSelect1 : List Char := "SELECT 1;".data

/-- Example buffer: a statement whose semicolon sits inside a string literal,
written out as SELECT (quote) ; (quote) ; SELECT 2. -/
def exSemiStr : List Char := "SELECT ".data ++ [cSQ, ';', cSQ] ++ " ; SELECT 2".data

/-- Example buffer: a BEGIN block that starts mid-way through the first
scanner segment (x BEGIN a; b; END). -/
def exBlockMid : List Char := "x BEGIN a; b; END".data

/-- Example buffer: a BEGIN TRANSACTION block (exempted from block grouping
by `split_sql` but not by `find_enclosing_block`). -/
def exBeginTx : List Char := "BEGIN TRANSACTION; END".data

/-- Example buffer: the words BEGIN and END enclosed in a single-quoted
string literal. -/
def exQuoteBlock : List Char := [cSQ] ++ "BEGIN END".data ++ [cSQ]

/-- Example buffer: the words BEGIN and END inside a block comment, followed
by a statement. -/
def exCommentBlock : List Char :=
  ['/', '*', ' '] ++ "BEGIN END".data ++ [' ', '*', '/', ' '] ++ "SELECT 1".data

/-- Example buffer: block-containing DDL whose body hides an END inside a
string literal before the real END. -/
def exDdlQuotedEnd : List Char :=
  "CREATE PROCEDURE p AS BEGIN ".data ++ [cSQ] ++ "END".data ++ [cSQ] ++ "; END".data

/-- Example buffer of the end-to-end scenario: two statements on two lines. -/
def exTwoSelects : List Char := "SELECT 1;\nSELECT 2;".data

/-- Example buffer: the keyword BEGIN preceded by an underscore. -/
def exUnderscore : List Char := "a_BEGIN b".data

/-- Example buffer: a DDL whose ALIAS ends in the letters AS; the AS test of
`find_ddl_with_block_end` has no left-boundary check, so that tail is taken
as the AS keyword. -/
def exAlias : List Char := "CREATE PROCEDURE p ALIAS BEGIN NULL; END".data

/-- Example buffer with a non-ASCII character: BEGIN (quote)caf(e-acute)(quote)
END, as characters. -/
def exCafe : List Char :=
  "BEGIN ".data ++ [cSQ] ++ "caf".data ++ [Char.ofNat 233] ++ [cSQ] ++ " END".data

/-- The same buffer as UTF-8 bytes: the e-acute is the two bytes 195, 169 at
positions 10 and 11. -/
def exCafeBytes : List Nat :=
  [66, 69, 71, 73, 78, 32, 39, 99, 97, 102, 195, 169, 39, 32, 69, 78, 68]

/-- Example batch: first entry fails in `TileRowStore::from_rows`, second
entry succeeds with a rowcount result. -/
def exBatchTileErr : List ((List Char × List Char) × ExecOutcome) :=
  [(("SELECT 1".data, "Q1".data), .dataTileErr ("TileRowStore error".data)),
   (("SELECT 2".data, "Q2".data), .noData ("ok".data))]

/-- Example batch: a single entry whose `exec_direct` fails. -/
def exBatchExecErr : List ((List Char × List Char) × ExecOutcome) :=
  [(("SELECT boom".data, "Q1".data), .execErr ("Execution Error".data))]

/-- Example batch: a single entry that succeeds with a rowcount result. -/
def exBatchOk : List ((List Char × List Char) × ExecOutcome) :=
  [(("SELECT 1".data, "Q1".data), .noData ("ok".data))]

/-- Example batch: a single entry that fails in `TileRowStore::from_rows`. -/
def exBatchTileErrSolo : List ((List Char × List Char) × ExecOutcome) :=
  [(("SELECT 1".data, "Q1".data), .dataTileErr ("TileRowStore error".data))]

/-- Example coordinator state: mid-way through a two-statement batch. -/
def exCoord : Coord :=
  { tabs := [newPendingTab 0], tabIdx := 0, running := true,
    runningQueryIdx := some 0, totalQueries := 2, runStarted := some 0,
    runDuration := none, error := none, connected := true, statusMessage := none }

/-! Helper lemmas about the scanner. -/

/-- Scanner at or past the end of input: EndOfInput, offset and state unchanged. -/
theorem stepFn_eof {bytes : List Char} {i : Nat} (st : ParseState)
    (h : bytes.length ≤ i) : stepFn bytes i st = (i, .Eof, st) := by
  unfold stepFn
  rw [if_pos (by omega)]

/-- Scanner progress: strictly below the end of input, the scanner strictly
advances the offset. -/
theorem stepFn_lt {bytes : List Char} {i : Nat} (st : ParseState)
    (h : i < bytes.length) : i < (stepFn bytes i st).1 := by
  unfold stepFn
  rw [if_neg (by omega)]
  cases st <;> dsimp only <;> split_ifs <;> simp

/-- A non-EndOfInput scanner result implies the offset was in bounds. -/
theorem stepFn_in_bounds {bytes : List Char} {i : Nat} {st : ParseState}
    (h : (stepFn bytes i st).2.1 ≠ .Eof) : i < bytes.length := by
  by_contra hge
  rw [stepFn_eof st (by omega)] at h
  exact h rfl

/-! Helper lemmas about the generic fuelled loop. -/

/-- If every loop iteration strictly decreases a measure, fuel above the
initial measure makes the loop reach its natural end. -/
theorem iterate_isSome {σ α : Type} (f : σ → σ ⊕ α) (m : σ → Nat)
    (hdec : ∀ s s', f s = .inl s' → m s' < m s) :
    ∀ n s, m s < n → (iterate f n s).isSome := by
  intro n
  induction n with
  | zero => intro s h; exact absurd h (Nat.not_lt_zero _)
  | succ k ih =>
    intro s h
    simp only [iterate]
    cases hf : f s with
    | inr a => simp
    | inl s' =>
      simp only []
      exact ih s' (Nat.lt_of_lt_of_le (hdec s s' hf) (Nat.lt_succ_iff.mp h))

/-- Invariant propagation through the fuelled loop. -/
theorem iterate_inv {σ α : Type} (f : σ → σ ⊕ α) (P : σ → Prop) (Q : α → Prop)
    (hstep : ∀ s s', P s → f s = .inl s' → P s')
    (hdone : ∀ s a, P s → f s = .inr a → Q a) :
    ∀ n s a, P s → iterate f n s = some a → Q a := by
  intro n
  induction n with
  | zero => intro s a _ h; simp [iterate] at h
  | succ k ih =>
    intro s a hP h
    simp only [iterate] at h
    cases hf : f s with
    | inr b =>
      rw [hf] at h
      simp only [Option.some.injEq] at h
      exact h ▸ hdone s b hP hf
    | inl s' =>
      rw [hf] at h
      exact ih s' a (hstep s s' hP hf) h

/-! Helper lemmas about trimming. -/

/-- The head surviving a `dropWhile` fails the predicate. -/
theorem dropWhile_cons_head {α : Type} {p : α → Bool} {l t : List α} {a : α}
    (h : l.dropWhile p = a :: t) : p a = false := by
  induction l with
  | nil => simp [List.dropWhile] at h
  | cons b l' ih =>
    rw [List.dropWhile_cons] at h
    by_cases hb : p b
    · rw [if_pos hb] at h; exact ih h
    · rw [if_neg hb] at h
      injection h with h1 _
      subst h1
      simpa using hb

/-- An element failing the predicate survives `dropWhile`. -/
theorem mem_dropWhile_of_mem {α : Type} {p : α → Bool} {l : List α} {a : α}
    (ha : a ∈ l) (hpa : p a = false) : a ∈ l.dropWhile p := by
  induction l with
  | nil => cases ha
  | cons b t ih =>
    rw [List.dropWhile_cons]
    by_cases hb : p b
    · rw [if_pos hb]
      rcases List.mem_cons.mp ha with h1 | h2
      · subst h1; rw [hb] at hpa; cases hpa
      · exact ih h2
    · rw [if_neg hb]; exact ha

/-- Trimming is stable: a value already produced by `trimLC`, when non-empty,
stays non-empty under a second trim. -/
theorem trimLC_of_trimmed_ne_nil {s x : List Char} (hx : s = trimLC x)
    (hne : s ≠ []) : trimLC s ≠ [] := by
  have hinner : ((x.dropWhile isTrimWs).reverse.dropWhile isTrimWs) ≠ [] := by
    intro hz
    apply hne
    rw [hx]
    unfold trimLC
    rw [hz]
    rfl
  obtain ⟨a, t, hat⟩ := List.exists_cons_of_ne_nil hinner
  have haw : isTrimWs a = false := dropWhile_cons_head hat
  have hamem : a ∈ s := by
    rw [hx]
    unfold trimLC
    rw [hat]
    exact List.mem_reverse.mpr (by simp)
  intro hnil
  unfold trimLC at hnil
  rw [List.reverse_eq_nil_iff] at hnil
  have hall := List.dropWhile_eq_nil_iff.mp hnil
  have : a ∈ (s.dropWhile isTrimWs).reverse :=
    List.mem_reverse.mpr (mem_dropWhile_of_mem hamem haw)
  have := hall a this
  rw [haw] at this
  cases this

/-! Monotonicity lemmas for the block scanners, used for termination of the
splitter loop. -/

/-- Whitespace skipping never moves backwards. -/
theorem skipAsciiWs_le (buf : List Char) : ∀ f p, p ≤ skipAsciiWs buf f p := by
  intro f
  induction f with
  | zero => intro p; simp [skipAsciiWs]
  | succ k ih =>
    intro p
    unfold skipAsciiWs
    split
    · exact Nat.le_trans (Nat.le_succ p) (ih (p + 1))
    · exact Nat.le_refl p

/-- The block-end epilogue never moves backwards. -/
theorem extendWsSemi_le (buf : List Char) (p : Nat) : p ≤ extendWsSemi buf p := by
  unfold extendWsSemi
  have := skipAsciiWs_le buf (buf.length + 1) p
  dsimp only
  split <;> omega

/-- The DECLARE-body BEGIN scan of the DDL detector only moves forward. -/
theorem ddlDeclBeginScan_ge (bytes : List Char) :
    ∀ f i st i2 st2, ddlDeclBeginScan bytes f i st = some (i2, st2) → i + 5 ≤ i2 := by
  intro f
  induction f with
  | zero => intro i st i2 st2 h; simp [ddlDeclBeginScan] at h
  | succ k ih =>
    intro i st i2 st2 h
    unfold ddlDeclBeginScan at h
    dsimp only at h
    split at h
    · cases h
    · split at h
      · injection h with h1
        injection h1 with h2 _
        omega
      · have hlt : i < (stepFn bytes i st).1 := stepFn_lt st (by omega)
        have := ih (stepFn bytes i st).1 (stepFn bytes i st).2.2 i2 st2 h
        omega

/-- Phase one of the DDL detector only moves forward. -/
theorem ddlPhaseA_ge (bytes : List Char) :
    ∀ f i st fa ia i1 st1, ddlPhaseA bytes f i st fa ia = some (i1, st1) → i + 5 ≤ i1 := by
  intro f
  induction f with
  | zero => intro i st fa ia i1 st1 h; simp [ddlPhaseA] at h
  | succ k ih =>
    intro i st fa ia i1 st1 h
    unfold ddlPhaseA at h
    dsimp only at h
    split at h
    · cases h
    · have hlt : i < (stepFn bytes i st).1 := stepFn_lt st (by omega)
      split at h
      · have := ih _ _ _ _ _ _ h; omega
      · split at h
        · injection h with h1
          injection h1 with h2 _
          omega
        · split at h
          · have := ddlDeclBeginScan_ge bytes _ _ _ _ _ h; omega
          · split at h
            · cases h
            · have := ih _ _ _ _ _ _ h; omega

/-- Phase two of the DDL detector returns a position ahead of its cursor. -/
theorem ddlPhaseB_ge (bytes : List Char) :
    ∀ f i st count e, ddlPhaseB bytes f i st count = some e → i + 3 ≤ e := by
  intro f
  induction f with
  | zero => intro i st count e h; simp [ddlPhaseB] at h
  | succ k ih =>
    intro i st count e h
    unfold ddlPhaseB at h
    dsimp only at h
    split at h
    · cases h
    · rename_i hcond
      rw [not_not] at hcond
      have hlt : i < (stepFn bytes i st).1 := stepFn_lt st hcond.1
      split at h
      · have := ih _ _ _ _ h; omega
      · split at h
        · split at h
          · injection h with h1
            have := extendWsSemi_le bytes (i + 3)
            omega
          · have := ih _ _ _ _ h; omega
        · split at h
          · cases h
          · have := ih _ _ _ _ h; omega

/-- A successful DDL-with-block detection ends strictly after its start. -/
theorem find_ddl_gt {text : List Char} {start e : Nat}
    (h : find_ddl_with_block_end text start = some e) : start < e := by
  unfold find_ddl_with_block_end at h
  split at h
  · cases h
  · rename_i p hp
    have h1 := ddlPhaseA_ge text _ _ _ _ _ _ _ hp
    have h2 := ddlPhaseB_ge text _ _ _ _ _ h
    omega

/-- A block returned by `find_enclosing_block` contains the queried position. -/
theorem find_enclosing_block_mem {buf : List Char} {pos : Nat} {b : Nat × Nat}
    (h : find_enclosing_block buf pos = some b) : b.1 ≤ pos ∧ pos < b.2 := by
  have := List.find?_some h
  simpa using this

/-- The DDL prefix test fails on the empty remainder. -/
theorem ddl_prefix_in_bounds {text : List Char} {i : Nat}
    (h : is_block_containing_ddl (text.drop i) = true) : i < text.length := by
  by_contra hge
  rw [List.drop_eq_nil_of_le (by omega)] at h
  cases h

/-- The standalone-block prefix test fails on the empty remainder. -/
theorem block_prefix_in_bounds {text : List Char} {i : Nat}
    (h : hasBlockKeywordStart (text.drop i) = true) : i < text.length := by
  by_contra hge
  rw [List.drop_eq_nil_of_le (by omega)] at h
  cases h

/-- When the block-predicate phase of `split_sql` fires, the cursor strictly
advances while in bounds, and the accumulator grows by one trimmed push. -/
theorem splitTryBlocks_spec {text : List Char} {σ σ' : SplitState}
    (h : splitTryBlocks text σ = some σ') :
    (σ.i < σ'.i ∧ σ.i < text.length) ∧ ∃ y, σ'.acc = pushTrimmed σ.acc (trimLC y) := by
  unfold splitTryBlocks at h
  split at h
  · dsimp only at h
    split at h
    · rename_i ddlEnd hddl
      have hddlSome : is_block_containing_ddl (text.drop σ.i) = true ∧
          find_ddl_with_block_end text σ.i = some ddlEnd := by
        by_cases hc : is_block_containing_ddl (text.drop σ.i) = true
        · rw [if_pos hc] at hddl; exact ⟨hc, hddl⟩
        · rw [if_neg hc] at hddl; cases hddl
      injection h with h1
      subst h1
      refine ⟨⟨?_, ddl_prefix_in_bounds hddlSome.1⟩, ⟨slice text σ.i ddlEnd, rfl⟩⟩
      have h2 := find_ddl_gt hddlSome.2
      have h3 := skipAsciiWs_le text (text.length + 1) ddlEnd
      dsimp only
      omega
    · split at h
      · rename_i hkw
        split at h
        · rename_i b hb
          injection h with h1
          subst h1
          have hmem := find_enclosing_block_mem hb
          have h3 := skipAsciiWs_le text (text.length + 1) b.2
          exact ⟨⟨by dsimp only; omega, block_prefix_in_bounds hkw⟩, ⟨slice text b.1 b.2, rfl⟩⟩
        · cases h
      · cases h
  · cases h

/-- The statement-accumulator invariant of the splitter: every collected
statement is non-empty and is the trim of some slice. -/
def AccGood (acc : List (List Char)) : Prop :=
  ∀ s ∈ acc, s ≠ [] ∧ ∃ x, s = trimLC x

/-- Pushing a trimmed slice preserves the accumulator invariant. -/
theorem accGood_push {acc : List (List Char)} (y : List Char) (h : AccGood acc) :
    AccGood (pushTrimmed acc (trimLC y)) := by
  intro s hs
  unfold pushTrimmed at hs
  split at hs
  · exact h s hs
  · rename_i hne
    rcases List.mem_append.mp hs with hs1 | hs2
    · exact h s hs1
    · rw [List.mem_singleton] at hs2
      subst hs2
      exact ⟨hne, ⟨y, rfl⟩⟩

/-- One splitter iteration strictly decreases the remaining-input measure. -/
theorem splitStep_decreases (text : List Char) (σ σ' : SplitState)
    (h : splitStep text σ = .inl σ') :
    text.length + 1 - σ'.i < text.length + 1 - σ.i := by
  unfold splitStep at h
  cases htb : splitTryBlocks text σ with
  | some σ2 =>
    rw [htb] at h
    injection h with h1
    subst h1
    have := (splitTryBlocks_spec htb).1
    omega
  | none =>
    rw [htb] at h
    dsimp only at h
    split at h
    · rename_i hsemi
      injection h with h1
      subst h1
      have hb : σ.i < text.length := stepFn_in_bounds (by rw [hsemi]; simp)
      have := @stepFn_lt text σ.i σ.st hb
      dsimp only
      omega
    · rename_i hadv
      injection h with h1
      subst h1
      have hb : σ.i < text.length := stepFn_in_bounds (by rw [hadv]; simp)
      have := @stepFn_lt text σ.i σ.st hb
      dsimp only
      omega
    · cases h

/-- One splitter iteration preserves the accumulator invariant. -/
theorem splitStep_inv (text : List Char) (σ : SplitState) (σ' : SplitState)
    (hP : AccGood σ.acc) (h : splitStep text σ = .inl σ') : AccGood σ'.acc := by
  unfold splitStep at h
  cases htb : splitTryBlocks text σ with
  | some σ2 =>
    rw [htb] at h
    injection h with h1
    subst h1
    obtain ⟨_, y, hy⟩ := splitTryBlocks_spec htb
    rw [hy]
    exact accGood_push y hP
  | none =>
    rw [htb] at h
    dsimp only at h
    split at h
    · injection h with h1
      subst h1
      exact accGood_push _ hP
    · injection h with h1
      subst h1
      exact hP
    · cases h

/-- A finished splitter iteration produces a good statement list. -/
theorem splitStep_done (text : List Char) (σ : SplitState) (out : List (List Char))
    (hP : AccGood σ.acc) (h : splitStep text σ = .inr out) : AccGood out := by
  unfold splitStep at h
  cases htb : splitTryBlocks text σ with
  | some σ2 => rw [htb] at h; cases h
  | none =>
    rw [htb] at h
    dsimp only at h
    split at h
    · cases h
    · cases h
    · injection h with h1
      subst h1
      exact accGood_push _ hP

/-! Claim theorems. -/

/-- Total behaviour of the character-level embedding of `split_sql`: the
loop reaches its natural end within fuel `text.length + 2` (so the fuel in
the definition is sufficient for every input), and every statement it
returns is non-empty after trimming.  On the raw UTF-8 bytes the source is
not total, however: see `split_sql_panics_on_non_ascii`. -/
theorem split_sql_terminates_nonempty :
    ∀ text : List Char,
      (iterate (splitStep text) (text.length + 2)
        ({ i := 0, start := 0, st := .Normal, acc := [] } : SplitState)).isSome
      ∧ ∀ s ∈ split_sql text, trimLC s ≠ [] := by
  intro text
  constructor
  · apply iterate_isSome (splitStep text) (fun σ => text.length + 1 - σ.i)
      (fun s s' h => splitStep_decreases text s s' h)
    dsimp only
    omega
  · intro s hs
    unfold split_sql at hs
    cases hit : iterate (splitStep text) (text.length + 2)
        ({ i := 0, start := 0, st := .Normal, acc := [] } : SplitState) with
    | none => rw [hit] at hs; cases hs
    | some r =>
      rw [hit] at hs
      have hQ : AccGood r :=
        iterate_inv (splitStep text) (fun σ => AccGood σ.acc) AccGood
          (fun σ σ' hP h => splitStep_inv text σ σ' hP h)
          (fun σ a hP h => splitStep_done text σ a hP h)
          _ _ _ (fun s hs => absurd hs (List.not_mem_nil s)) hit
      obtain ⟨hne, x, hx⟩ := hQ s hs
      exact trimLC_of_trimmed_ne_nil hx hne

/-- Concrete instance of the character-level totality result. -/
theorem split_sql_terminates_nonempty_witness :
    trimLC ("SELECT 1".data) ≠ [] :=
  (split_sql_terminates_nonempty exSelect1).2 ("SELECT 1".data) (by decide)

/-- C5: evaluation of the code at the failing input BEGIN (quote)caf(e-acute)
(quote) END.  The splitter's prefix gates select the standalone-block branch
(the remainder is not block-containing DDL and starts with BEGIN without
TRANSACTION), so `split_sql` calls `find_enclosing_block(text, 0)`; at the
byte level that scan reaches `has_keyword_at(buf, 6, BEGIN)`, whose slice
endpoint 11 falls on the second byte of the two-byte e-acute - not a
character boundary - so the `&text[6..11]` slice panics, modelled as `none`.
`split_sql` therefore fails on this input rather than returning a result. -/
theorem split_sql_panics_on_non_ascii :
    is_block_containing_ddl exCafe = false
    ∧ hasBlockKeywordStart exCafe = true
    ∧ isCharBoundary exCafeBytes 11 = false
    ∧ hasKeywordAtB exCafeBytes 6 kwBEGINB = none
    ∧ find_enclosing_blockB exCafeBytes 0 = none := by decide

/-- C6 (amended): the scanner never panics and makes strict progress below
the end of input; at or past the end of input (not only exactly at it), it
returns EndOfInput with the offset and state unchanged. -/
theorem step_progress_amended :
    ∀ (bytes : List Char) (i : Nat) (st : ParseState),
      (i < bytes.length → i < (stepFn bytes i st).1)
      ∧ (bytes.length ≤ i → stepFn bytes i st = (i, .Eof, st)) :=
  fun _ _ st => ⟨fun h => stepFn_lt st h, fun h => stepFn_eof st h⟩

/-- Witness for C6 at a concrete byte slice and offset. -/
theorem step_progress_amended_witness :
    0 < (stepFn ("x".data) 0 .Normal).1 :=
  (step_progress_amended ("x".data) 0 .Normal).1 (by decide)

/-- Counterexample to C6 as stated: for the empty byte slice and offset 1,
the offset differs from `bytes.len()` yet the scanner does not advance; it
returns EndOfInput with the offset unchanged. -/
theorem step_no_progress_beyond_len :
    (stepFn ([] : List Char) 1 .Normal).1 = 1
    ∧ (1 : Nat) ≠ ([] : List Char).length
    ∧ stepFn ([] : List Char) 1 .Normal = (1, .Eof, .Normal) := by decide

/-- Helper for C7: the scanner emits a statement boundary only from the
Normal state. -/
theorem stepFn_semi_normal :
    ∀ (bytes : List Char) (i : Nat) (st : ParseState),
      (stepFn bytes i st).2.1 = .Semi → st = .Normal := by
  intro bytes i st h
  cases st
  case Normal => rfl
  all_goals
    exfalso
    unfold stepFn at h
    split at h
    · simp at h
    · dsimp only at h
      split_ifs at h

/-- C7: `StatementBoundary` is produced only from the Normal state, and a
semicolon inside a single-quoted string does not split the statement:
splitting SELECT (quote);(quote) ; SELECT 2 yields exactly the two expected
statements. -/
theorem semi_only_from_normal :
    (∀ (bytes : List Char) (i : Nat) (st : ParseState),
       (stepFn bytes i st).2.1 = .Semi → st = .Normal)
    ∧ split_sql exSemiStr = ["SELECT ".data ++ [cSQ, ';', cSQ], "SELECT 2".data] :=
  ⟨stepFn_semi_normal, by decide⟩

/-- Witness for C7: the implication applied at a concrete semicolon byte. -/
theorem semi_only_from_normal_witness :
    ParseState.Normal = ParseState.Normal :=
  semi_only_from_normal.1 (";".data) 0 .Normal (by decide)

/-- Helper for C4: whatever `hasKeywordAt` accepts satisfies the
alphanumeric word-boundary conditions on both sides. -/
theorem hasKeywordAt_boundary :
    ∀ (text : List Char) (pos : Nat) (kw : List Char),
      hasKeywordAt text pos kw = true →
      (pos = 0 ∨ alnumAt text (pos - 1) = false)
      ∧ (pos + kw.length ≥ text.length ∨ alnumAt text (pos + kw.length) = false) := by
  intro text pos kw h
  unfold hasKeywordAt at h
  split_ifs at h
  dsimp only at h
  rw [Bool.and_eq_true, decide_eq_true_iff, decide_eq_true_iff] at h
  exact h

/-- C4 (amended): the word-boundary test for BEGIN, END and DECLARE rejects
an adjacent ASCII alphanumeric but accepts an adjacent underscore; the AS
test checks only its right boundary, so an AS whose left neighbour is
alphanumeric (the tail of ALIAS) is honoured and the ALIAS procedure is kept
atomic by `split_sql`.  Only `find_ddl_with_block_end` consults the re-run
scanner: it ignores a quoted END inside a procedure body, while
`find_enclosing_block` opens a block on a BEGIN that sits inside a block
comment (scanner state InBlock). -/
theorem block_keyword_policy_amended :
    (∀ (text : List Char) (pos : Nat) (kw : List Char),
       hasKeywordAt text pos kw = true →
       (pos = 0 ∨ alnumAt text (pos - 1) = false)
       ∧ (pos + kw.length ≥ text.length ∨ alnumAt text (pos + kw.length) = false))
    ∧ hasKeywordAt exUnderscore 2 kwBEGIN = true
    ∧ (asHitAt ("xAS y".data) 1 = true ∧ asHitAt ("ASX y".data) 0 = false)
    ∧ (find_ddl_with_block_end exAlias 0 = some 40 ∧ split_sql exAlias = [exAlias])
    ∧ (scanStateAt exCommentBlock 3 = .InBlock
       ∧ find_enclosing_block exCommentBlock 5 = some (3, 13))
    ∧ find_ddl_with_block_end exDdlQuotedEnd 0 = some 38 :=
  ⟨hasKeywordAt_boundary, by decide, ⟨by decide, by decide⟩, ⟨by decide, by decide⟩,
   ⟨by decide, by decide⟩, by decide⟩

/-- Witness for C4: the boundary conditions at the underscore example. -/
theorem block_keyword_policy_amended_witness :
    ((2 : Nat) = 0 ∨ alnumAt exUnderscore (2 - 1) = false)
    ∧ (2 + kwBEGIN.length ≥ exUnderscore.length
       ∨ alnumAt exUnderscore (2 + kwBEGIN.length) = false) :=
  block_keyword_policy_amended.1 exUnderscore 2 kwBEGIN (by decide)

/-- Counterexample to C4 as stated: in the buffer (quote)BEGIN END(quote) the
word BEGIN at position 1 lies inside a single-quoted string (the re-run
scanner state there is InSingle, not Normal), yet `find_enclosing_block`
opens, and closes, a block on it. -/
theorem block_keyword_in_string_counterexample :
    scanStateAt exQuoteBlock 1 = .InSingle
    ∧ scanStateAt exQuoteBlock 1 ≠ .Normal
    ∧ find_enclosing_block exQuoteBlock 2 = some (1, 10) := by decide

/-- C1: the caret resolver does not reproduce the `split_sql` segmentation.
On SELECT 1; it keeps the terminating semicolon that `split_sql` strips, and
on x BEGIN a; b; END with the caret at offset 11 (inside the segment b) it
returns the enclosing block, which is not an element of the split at all. -/
theorem caret_split_divergence :
    statement_at_caret exSelect1 0 = some ("SELECT 1;".data)
    ∧ split_sql exSelect1 = ["SELECT 1".data]
    ∧ statement_at_caret exBlockMid 11 = some ("BEGIN a; b; END".data)
    ∧ split_sql exBlockMid = ["x BEGIN a".data, "b".data, "END".data]
    ∧ ("BEGIN a; b; END".data) ∉ split_sql exBlockMid := by decide

/-- Counterexample to C9 as stated: with no selection and the caret in a
BEGIN TRANSACTION block, the resolver yields one statement but
`queries_for_execution` re-splits it into two, not a one-element list. -/
theorem caret_execution_not_singleton :
    statement_at_caret exBeginTx 0 = some ("BEGIN TRANSACTION; END".data)
    ∧ queries_for_execution exBeginTx none 0 = ["BEGIN TRANSACTION".data, "END".data]
    ∧ (queries_for_execution exBeginTx none 0).length ≠ 1 := by decide

/-- C9 (amended): a non-empty selection is split; with no usable selection
the caret statement is resolved and the result of `split_sql` applied to it
is returned (a one-element list in the common case, as in the end-to-end
example, but not always); no resolver result gives the empty list, and an
empty list is surfaced by `start_execute` as the no-op status message, not as
an error. -/
theorem queries_for_execution_amended :
    (∀ (buffer : List Char) (s e caret : Nat), s ≠ e →
       queries_for_execution buffer (some (s, e)) caret = split_sql (slice buffer s e))
    ∧ (∀ (buffer : List Char) (caret : Nat) (stmt : List Char),
        statement_at_caret buffer caret = some stmt →
        queries_for_execution buffer none caret = split_sql stmt)
    ∧ (∀ (buffer : List Char) (caret : Nat),
        statement_at_caret buffer caret = none →
        queries_for_execution buffer none caret = [])
    ∧ (∀ (buffer : List Char) (sel : Option (Nat × Nat)) (caret : Nat),
        queries_for_execution buffer sel caret = [] →
        start_execute_decision buffer sel caret = .noOp noSqlMsg)
    ∧ queries_for_execution exTwoSelects none 12 = ["SELECT 2".data] := by
  refine ⟨?_, ?_, ?_, ?_, by decide⟩
  · intro buffer s e caret hne
    unfold queries_for_execution
    dsimp only
    rw [if_pos hne]
  · intro buffer caret stmt h
    unfold queries_for_execution
    rw [h]
  · intro buffer caret h
    unfold queries_for_execution
    rw [h]
  · intro buffer sel caret h
    unfold start_execute_decision
    rw [h]
    rfl

/-- Witness for C9 at the end-to-end example buffer. -/
theorem queries_for_execution_amended_witness :
    queries_for_execution exTwoSelects none 12 = split_sql ("SELECT 2;".data) :=
  queries_for_execution_amended.2.1 exTwoSelects 12 ("SELECT 2;".data) (by decide)

/-- Helper for C2: every response of a batch run starting at index `i`
carries an index at least `i`. -/
theorem runBatch_idx_ge :
    ∀ (entries : List ((List Char × List Char) × ExecOutcome)) (i : Nat)
      (slot : Option Nat) (r : DbWorkerResponse),
      r ∈ (runBatch entries i slot).1 → i ≤ respIdx r := by
  intro entries
  induction entries with
  | nil => intro i slot r hr; simp [runBatch] at hr
  | cons e rest ih =>
    intro i slot r hr
    obtain ⟨⟨q, ctx⟩, out⟩ := e
    cases out <;> simp only [runBatch, List.mem_cons, List.mem_singleton] at hr
    case allocErr m =>
      rcases hr with h | h | h
      · subst h; simp [respIdx]
      · subst h; simp [respIdx]
      · cases h
    case dataOk hs =>
      rcases hr with h | h | h
      · subst h; simp [respIdx]
      · subst h; simp [respIdx]
      · have := ih (i + 1) none r h; omega
    case dataTileErr m =>
      rcases hr with h | h | h
      · subst h; simp [respIdx]
      · subst h; simp [respIdx]
      · have := ih (i + 1) (some i) r h; omega
    case noData m =>
      rcases hr with h | h | h
      · subst h; simp [respIdx]
      · subst h; simp [respIdx]
      · have := ih (i + 1) none r h; omega
    case execErr m =>
      rcases hr with h | h | h
      · subst h; simp [respIdx]
      · subst h; simp [respIdx]
      · cases h

/-- Helper for C2: batch responses are emitted in non-decreasing index
order. -/
theorem runBatch_pairwise :
    ∀ (entries : List ((List Char × List Char) × ExecOutcome)) (i : Nat)
      (slot : Option Nat),
      List.Pairwise (· ≤ ·) (((runBatch entries i slot).1).map respIdx) := by
  intro entries
  induction entries with
  | nil => intro i slot; simp [runBatch]
  | cons e rest ih =>
    intro i slot
    obtain ⟨⟨q, ctx⟩, out⟩ := e
    have hmem : ∀ slot2 (b : Nat),
        b ∈ ((runBatch rest (i + 1) slot2).1).map respIdx → i ≤ b := by
      intro slot2 b hb
      rcases List.mem_map.mp hb with ⟨r, hr, hrb⟩
      have := runBatch_idx_ge rest (i + 1) slot2 r hr
      omega
    cases out <;> simp only [runBatch, List.map_cons, List.map_nil]
    case allocErr m => simp [respIdx]
    case dataOk hs =>
      refine List.Pairwise.cons ?_ (List.Pairwise.cons ?_ (ih (i + 1) none))
      · intro b hb
        rcases List.mem_cons.mp hb with h | h
        · rw [h]; simp [respIdx]
        · exact hmem none b h
      · intro b hb; exact hmem none b hb
    case dataTileErr m =>
      refine List.Pairwise.cons ?_ (List.Pairwise.cons ?_ (ih (i + 1) (some i)))
      · intro b hb
        rcases List.mem_cons.mp hb with h | h
        · rw [h]; simp [respIdx]
        · exact hmem (some i) b h
      · intro b hb; exact hmem (some i) b hb
    case noData m =>
      refine List.Pairwise.cons ?_ (List.Pairwise.cons ?_ (ih (i + 1) none))
      · intro b hb
        rcases List.mem_cons.mp hb with h | h
        · rw [h]; simp [respIdx]
        · exact hmem none b h
      · intro b hb; exact hmem none b hb
    case execErr m => simp [respIdx]

/-- Helper for C2: when entry `k` of the batch stops the loop (statement
allocation failure or execution failure), no response of the run carries an
index beyond `i + k`. -/
theorem runBatch_stop :
    ∀ (entries : List ((List Char × List Char) × ExecOutcome)) (i : Nat)
      (slot : Option Nat) (k : Nat) (e : (List Char × List Char) × ExecOutcome),
      entries[k]? = some e → stopsBatch e.2 = true →
      ∀ r ∈ (runBatch entries i slot).1, respIdx r ≤ i + k := by
  intro entries
  induction entries with
  | nil => intro i slot k e hk; simp at hk
  | cons hd rest ih =>
    intro i slot k e hk hstop r hr
    obtain ⟨⟨q, ctx⟩, out⟩ := hd
    cases k with
    | zero =>
      rw [List.getElem?_cons_zero] at hk
      injection hk with hk1
      subst hk1
      cases out <;> simp [stopsBatch] at hstop <;>
        simp only [runBatch, List.mem_cons, List.mem_singleton] at hr
      · rcases hr with h | h | h
        · subst h; simp [respIdx]
        · subst h; simp [respIdx]
        · cases h
      · rcases hr with h | h | h
        · subst h; simp [respIdx]
        · subst h; simp [respIdx]
        · cases h
    | succ k2 =>
      rw [List.getElem?_cons_succ] at hk
      cases out <;> simp only [runBatch, List.mem_cons, List.mem_singleton] at hr
      case allocErr m =>
        rcases hr with h | h | h
        · subst h; simp [respIdx]
        · subst h; simp [respIdx]
        · cases h
      case dataOk hs =>
        rcases hr with h | h | h
        · subst h; simp [respIdx]
        · subst h; simp [respIdx]
        · have := ih (i + 1) none k2 e hk hstop r h; omega
      case dataTileErr m =>
        rcases hr with h | h | h
        · subst h; simp [respIdx]
        · subst h; simp [respIdx]
        · have := ih (i + 1) (some i) k2 e hk hstop r h; omega
      case noData m =>
        rcases hr with h | h | h
        · subst h; simp [respIdx]
        · subst h; simp [respIdx]
        · have := ih (i + 1) none k2 e hk hstop r h; omega
      case execErr m =>
        rcases hr with h | h | h
        · subst h; simp [respIdx]
        · subst h; simp [respIdx]
        · cases h

/-- C2 (amended): for every batch, responses carry non-decreasing indices,
and a statement-allocation or execution failure at entry `k` stops the batch
(no response, in particular no Started, carries an index beyond `k`); a
TileRowStore failure, although reported as an Error, does not stop it. -/
theorem worker_batch_order_and_stop :
    (∀ (entries : List ((List Char × List Char) × ExecOutcome)) (i : Nat)
       (slot : Option Nat),
       List.Pairwise (· ≤ ·) (((runBatch entries i slot).1).map respIdx))
    ∧ (∀ (entries : List ((List Char × List Char) × ExecOutcome)) (k : Nat)
        (e : (List Char × List Char) × ExecOutcome),
        entries[k]? = some e → stopsBatch e.2 = true →
        ∀ r ∈ (runBatch entries 0 none).1, respIdx r ≤ k) :=
  ⟨runBatch_pairwise,
   fun entries k e hk hs r hr => by
     have := runBatch_stop entries 0 none k e hk hs r hr
     omega⟩

/-- Witness for C2 at a concrete failing batch. -/
theorem worker_batch_order_and_stop_witness :
    respIdx (.queryStarted 0 0 ("Q1".data)) ≤ 0 :=
  worker_batch_order_and_stop.2 exBatchExecErr 0
    (("SELECT boom".data, "Q1".data), .execErr ("Execution Error".data))
    (by decide) (by decide) (.queryStarted 0 0 ("Q1".data)) (by decide)

/-- Counterexample to C2 as stated: a TileRowStore failure on entry 0 emits
an Error for index 0 and the worker then emits Started for index 1 in the
same batch. -/
theorem worker_continues_after_tile_error :
    (runBatch exBatchTileErr 0 none).1 =
      [.queryStarted 0 0 ("Q1".data), .queryError 0 0 ("TileRowStore error".data),
       .queryStarted 1 0 ("Q2".data), .queryFinished 1 0 (.Info ("ok".data))]
    ∧ DbWorkerResponse.queryError 0 0 ("TileRowStore error".data)
        ∈ (runBatch exBatchTileErr 0 none).1
    ∧ DbWorkerResponse.queryStarted 1 0 ("Q2".data)
        ∈ (runBatch exBatchTileErr 0 none).1 := by decide

/-- C3: evaluation of the worker at failing batches.  After a batch whose
only statement fails in `exec_direct`, and likewise one failing in
`TileRowStore::from_rows`, the CancellationSlot still holds the stale handle
of the failed statement (the error paths leave the loop before the clear at
workspace.rs:275, despite its comment saying the handle is cleared on
success or error); only the success path clears it. -/
theorem slot_left_set_after_error :
    (runBatch exBatchExecErr 0 none).2 = some 0
    ∧ (runBatch exBatchTileErrSolo 0 none).2 = some 0
    ∧ (runBatch exBatchOk 0 none).2 = none := by decide

/-- C8: a Cancel request with an empty slot emits no response, issues no
native cancel call, leaves the slot unchanged and keeps the loop running;
with a held handle it issues exactly one native cancel against that handle
and nothing else. -/
theorem cancel_request_behaviour :
    handleRequest none .cancel = ([], [], none, false)
    ∧ ∀ h : Nat, handleRequest (some h) .cancel = ([], [h], some h, false) :=
  ⟨rfl, fun _ => rfl⟩

/-- C10: a QueryError response always clears the batch-running flag and the
running-query index, even mid-batch, while a QueryFinished response leaves
them untouched unless its index is the last of the batch, in which case it
clears them. -/
theorem coordinator_error_unlocks :
    (∀ (st : Coord) (idx e : Nat) (m : List Char),
       (applyResponse st (.queryError idx e m)).running = false
       ∧ (applyResponse st (.queryError idx e m)).runningQueryIdx = none)
    ∧ (∀ (st : Coord) (idx e : Nat) (r : ResultsContent), idx + 1 < st.totalQueries →
        (applyResponse st (.queryFinished idx e r)).running = st.running
        ∧ (applyResponse st (.queryFinished idx e r)).runningQueryIdx = st.runningQueryIdx)
    ∧ (∀ (st : Coord) (idx e : Nat) (r : ResultsContent), ¬ idx + 1 < st.totalQueries →
        (applyResponse st (.queryFinished idx e r)).running = false
        ∧ (applyResponse st (.queryFinished idx e r)).runningQueryIdx = none) := by
  refine ⟨?_, ?_, ?_⟩
  · intro st idx e m
    constructor <;> simp [applyResponse]
  · intro st idx e r h
    constructor <;> simp [applyResponse, if_pos h]
  · intro st idx e r h
    constructor <;> simp [applyResponse, if_neg h]

/-- Witness for C10 at a concrete coordinator state mid-way through a
two-statement batch. -/
theorem coordinator_error_unlocks_witness :
    (applyResponse exCoord (.queryFinished 0 0 (.Info ("ok".data)))).running = exCoord.running
    ∧ (applyResponse exCoord (.queryFinished 1 0 (.Info ("ok".data)))).running = false :=
  ⟨(coordinator_error_unlocks.2.1 exCoord 0 0 (.Info ("ok".data)) (by decide)).1,
   (coordinator_error_unlocks.2.2 exCoord 1 0 (.Info ("ok".data)) (by decide)).1⟩

end Frost
